import Mathlib

/-!
Verification of the paired-patch extraction and dataset pipeline of the
DL4MIA image-regression repository (notebook `01_CARE/care_solution.ipynb`).

The embedding models numpy ndarrays as flat row-major lists of exact
rational pixel values together with a shape; numpy's floating-point values
are modelled as exact rationals (the spec's round-trip and equality
properties are stated "to floating-point precision", which the exact model
realizes exactly).  `astype(np.float32)` is the identity on the modelled
values and is recorded as a dtype tag.  numpy's random generator
`rng.integers(0, high, endpoint=True)` is modelled by an explicit stream of
naturals reduced modulo `high + 1`, which captures its support (every drawn
value lies in `[0, high]`) without committing to a distribution.
-/

/-- Element dtype of a numpy array, as far as the notebook distinguishes it. -/
inductive Dtype where
  | float32
  | float64
  | int64
deriving DecidableEq

/-- A numpy ndarray: a shape together with its elements in row-major order.
Well-formed arrays satisfy `data.length = shape.prod`. -/
structure NDArray where
  shape : List Nat
  data : List ℚ
deriving DecidableEq

/-- Row-major flat position of a multi-index `idx` inside an array of shape
`shape` (the strides of numpy's default C order). -/
def flatIdx : List Nat → List Nat → Nat
  | _ :: ds, i :: is => i * ds.prod + flatIdx ds is
  | _, _ => 0

/-- All multi-indices of a shape, enumerated in row-major order. -/
def allIdx : List Nat → List (List Nat)
  | [] => [[]]
  | d :: ds => (List.range d).flatMap fun i => (allIdx ds).map (i :: ·)

/-- Element of an array at a multi-index (0 outside the carrier; extraction
below only ever reads in-bounds positions). -/
def NDArray.entry (a : NDArray) (idx : List Nat) : ℚ :=
  a.data.getD (flatIdx a.shape idx) 0

/-- Elementwise map over an array (numpy broadcasting of scalar ops). -/
def NDArray.mapVals (f : ℚ → ℚ) (a : NDArray) : NDArray :=
  ⟨a.shape, a.data.map f⟩

/-- `sample[..., slice(c_1, c_1+p_1), ..., slice(c_k, c_k+p_k)]`: the crop of
the last `k = sizes.length` axes at offsets `coords`, leading axes kept whole
(numpy ellipsis indexing).  Element `ix` of the result is element
`lead(ix) ++ (coords + tail(ix))` of `a`. -/
def cropEllipsis (coords sizes : List Nat) (a : NDArray) : NDArray :=
  let lead := a.shape.take (a.shape.length - sizes.length)
  let newShape := lead ++ sizes
  ⟨newShape,
    (allIdx newShape).map fun ix =>
      a.entry (ix.take lead.length ++ List.zipWith (· + ·) coords (ix.drop lead.length))⟩

/-- Errors raised by the numpy operations the notebook uses.  `valueError`
stands for Python's `ValueError` (raised by `rng.integers` when the upper
bound is below the lower one — the spec's `InvalidPatchSize` — and by
`np.stack` on an empty list — the spec's `EmptyStackError`); `indexError`
stands for `IndexError` (out-of-range indexing — the spec's
`IndexOutOfBounds`). -/
inductive NpError where
  | valueError
  | indexError
deriving DecidableEq

/-- The state of `np.random.default_rng()`: an arbitrary stream of naturals
and a position into it. -/
structure RNG where
  stream : Nat → Nat
  pos : Nat

/-- `rng.integers(0, d - p, endpoint=True)` where `d` and `p` are Python
ints: raises `ValueError` when the high bound `d - p` is negative, otherwise
returns a value in `[0, d - p]` and advances the generator. -/
def RNG.integersEndpoint (g : RNG) (d p : Nat) : Except NpError (Nat × RNG) :=
  if d < p then .error .valueError
  else .ok (g.stream g.pos % (d - p + 1), ⟨g.stream, g.pos + 1⟩)

/-- The `crop_coords` list comprehension of `create_patches`:
`[rng.integers(0, sample.shape[i] - patch_size[i], endpoint=True) for i in
range(len(patch_size))]`.  Walks `sample.shape` and `patch_size` in parallel
from the front; exhausting the shape first is `sample.shape[i]` out of range,
an `IndexError`. -/
def drawCoords : List Nat → List Nat → RNG → Except NpError (List Nat × RNG)
  | _, [], g => .ok ([], g)
  | [], _ :: _, _ => .error .indexError
  | d :: ds, p :: ps, g =>
    match g.integersEndpoint d p with
    | .error e => .error e
    | .ok (c, g') =>
      match drawCoords ds ps g' with
      | .error e => .error e
      | .ok (cs, g'') => .ok (c :: cs, g'')

/-- One iteration of the inner patch loop of `create_patches`: draw the crop
coordinates, then extract the patch and the target patch from the same
sample index at the identical offsets.  `.copy().astype(np.float32)` is the
identity on the modelled exact values; the dtype change is recorded on the
returned stacks. -/
def patchOnce (sample targetSample : NDArray) (patchSize : List Nat) (g : RNG) :
    Except NpError ((NDArray × NDArray) × RNG) :=
  match drawCoords sample.shape patchSize g with
  | .error e => .error e
  | .ok (coords, g') =>
    .ok ((cropEllipsis coords patchSize sample, cropEllipsis coords patchSize targetSample), g')

/-- `n_patches = np.ceil(np.prod(sample.shape) / np.prod(patch_size)).astype(int)`:
the ceiling of the quotient of the sample volume by the patch volume, written
as natural ceiling division `(a + b - 1) / b` so it evaluates; the lemma
`computePatchCount_eq_ceil` below identifies it with `⌈a / b⌉` of the exact
quotient, the form `np.ceil` computes. -/
def computePatchCount (sampleShape patchSize : List Nat) : Nat :=
  (sampleShape.prod + patchSize.prod - 1) / patchSize.prod

/-- The inner `for _ in range(n_patches)` loop of `create_patches`, threading
the random generator and accumulating the extracted pairs in order. -/
def patchLoop (sample targetSample : NDArray) (patchSize : List Nat) :
    Nat → RNG → Except NpError (List (NDArray × NDArray) × RNG)
  | 0, g => .ok ([], g)
  | n + 1, g =>
    match patchOnce sample targetSample patchSize g with
    | .error e => .error e
    | .ok (pr, g') =>
      match patchLoop sample targetSample patchSize n g' with
      | .error e => .error e
      | .ok (rest, g'') => .ok (pr :: rest, g'')

/-- The outer `for s in range(image_array.shape[0])` loop of
`create_patches`: for each sample, compute its patch count and run the inner
loop; `target_array[s]` is the target sample at the same position (popping
both lists in parallel realizes indexing by `s`; an exhausted target list is
`IndexError`). -/
def samplesLoop (patchSize : List Nat) :
    List NDArray → List NDArray → RNG → Except NpError (List (NDArray × NDArray) × RNG)
  | [], _, g => .ok ([], g)
  | _ :: _, [], _ => .error .indexError
  | img :: imgs, tgt :: tgts, g =>
    match patchLoop img tgt patchSize (computePatchCount img.shape patchSize) g with
    | .error e => .error e
    | .ok (prs, g') =>
      match samplesLoop patchSize imgs tgts g' with
      | .error e => .error e
      | .ok (rest, g'') => .ok (prs ++ rest, g'')

/-- A stack of same-shape samples (a numpy array viewed along its first
axis) with the dtype of the whole array. -/
structure NpStack where
  samples : List NDArray
  dtype : Dtype
deriving DecidableEq

/-- `create_patches(image_array, target_array, patch_size)` of
`01_CARE/care_solution.ipynb`: extract, for each sample, `n_patches` random
paired crops at identical offsets, and stack the two patch lists
(`np.stack` of an empty list raises `ValueError`).  The generator
`np.random.default_rng()` is function-local, passed here explicitly. -/
def create_patches (image_array target_array : NpStack) (patch_size : List Nat)
    (g : RNG) : Except NpError (NpStack × NpStack) :=
  match samplesLoop patch_size image_array.samples target_array.samples g with
  | .error e => .error e
  | .ok (pairs, _) =>
    if pairs.isEmpty then .error .valueError
    else .ok (⟨pairs.map Prod.fst, .float32⟩, ⟨pairs.map Prod.snd, .float32⟩)

/-- Modelled from the spec: `normalize` of `transforms.py`, which is imported
by the notebook but absent from the repository snapshot.  The spec defines it
as `(array - mean) / std`, applied elementwise. -/
def transforms.normalize (array : NDArray) (mean std : ℚ) : NDArray :=
  array.mapVals fun v => (v - mean) / std

/-- Modelled from the spec: `denormalize` of `transforms.py` (absent from the
repository snapshot).  The spec defines it as `array * std + mean`, applied
elementwise. -/
def transforms.denormalize (array : NDArray) (mean std : ℚ) : NDArray :=
  array.mapVals fun v => v * std + mean

/-- All pixel values of a stack, in order (the flat view numpy's `.mean()`
and `.std()` reduce over). -/
def NpStack.pixels (s : NpStack) : List ℚ :=
  s.samples.flatMap fun a => a.data

/-- `array.mean()`: the arithmetic mean of all pixel values of the stack
(the notebook's `train_mean` / `target_mean` cell). -/
def NpStack.meanVal (s : NpStack) : ℚ :=
  s.pixels.sum / s.pixels.length

/-- The variance of all pixel values of the stack.  numpy's `array.std()`
(the notebook's `train_std` / `target_std`) is its square root, which is not
rational in general; `std = 0` holds exactly when `varVal = 0`, which is the
degenerate-statistics condition the spec discusses. -/
def NpStack.varVal (s : NpStack) : ℚ :=
  (s.pixels.map fun v => (v - s.meanVal) ^ 2).sum / s.pixels.length

/-- numpy basic indexing `xs[i]` along the first axis with a Python int `i`:
indices in `[0, n)` select directly, indices in `[-n, 0)` wrap to `n + i`,
anything else raises `IndexError`. -/
def npListGet (xs : List NDArray) (i : Int) : Except NpError NDArray :=
  let n : Int := xs.length
  if 0 ≤ i ∧ i < n then .ok (xs.getD i.toNat ⟨[], []⟩)
  else if -n ≤ i ∧ i < 0 then .ok (xs.getD (i + n).toNat ⟨[], []⟩)
  else .error .indexError

/-- The `CAREDataset` of the notebook.  Its `__init__` only stores the two
patch stacks and the augmentation flag — it performs no validation — so the
structure constructor is the faithful model of construction. -/
structure CAREDataset where
  image_data : NpStack
  target_data : NpStack
  patch_augment : Bool

/-- `CAREDataset.__len__`: `self.image_data.shape[0]`, the first-axis size
of the image patch stack alone. -/
def CAREDataset.len (d : CAREDataset) : Nat :=
  d.image_data.samples.length

/-- The scalar statistics `__getitem__` reads from module-level globals
(`train_mean`, `train_std`, `target_mean`, `target_std`), passed explicitly
here. -/
structure NormStats where
  trainMean : ℚ
  trainStd : ℚ
  targetMean : ℚ
  targetStd : ℚ

/-- An array as returned to the training loop: values plus dtype tag. -/
structure NpItem where
  arr : NDArray
  dtype : Dtype
deriving DecidableEq

/-- `CAREDataset.__getitem__(index)`: fetch the stored patch and target at
`index` (numpy first-axis indexing), optionally apply the paired
augmentation (`augment_batch` of the absent `transforms.py`, modelled as an
injected function `aug` consuming the ambient random state `g`), normalize
each with its role's statistics, and return both with a leading length-1
axis and dtype float32 (`patch[np.newaxis].astype(np.float32)`; prepending a
unit axis leaves the row-major data unchanged). -/
def CAREDataset.getItem (d : CAREDataset) (stats : NormStats)
    (aug : RNG → NDArray → NDArray → NDArray × NDArray) (g : RNG) (index : Int) :
    Except NpError (NpItem × NpItem) :=
  match npListGet d.image_data.samples index with
  | .error e => .error e
  | .ok patch0 =>
    match npListGet d.target_data.samples index with
    | .error e => .error e
    | .ok target0 =>
      let (patch, target) :=
        if d.patch_augment then aug g patch0 target0 else (patch0, target0)
      let patch := transforms.normalize patch stats.trainMean stats.trainStd
      let target := transforms.normalize target stats.targetMean stats.targetStd
      .ok (⟨⟨1 :: patch.shape, patch.data⟩, .float32⟩,
           ⟨⟨1 :: target.shape, target.data⟩, .float32⟩)

/-! Helper lemmas shared by the claim theorems. -/

theorem computePatchCount_eq_ceil (sampleShape patchSize : List Nat) :
    computePatchCount sampleShape patchSize =
      Nat.ceil ((sampleShape.prod : ℚ) / (patchSize.prod : ℚ)) := by
  unfold computePatchCount
  rcases Nat.eq_zero_or_pos patchSize.prod with hb | hb
  · simp [hb]
  · have hbq : (0 : ℚ) < (patchSize.prod : ℚ) := by exact_mod_cast hb
    apply le_antisymm
    · have h1 : (sampleShape.prod : ℚ) ≤
          (Nat.ceil ((sampleShape.prod : ℚ) / (patchSize.prod : ℚ)) : ℚ) * (patchSize.prod : ℚ) := by
        have h := Nat.le_ceil ((sampleShape.prod : ℚ) / (patchSize.prod : ℚ))
        rwa [div_le_iff₀ hbq] at h
      have h1' : sampleShape.prod ≤
          patchSize.prod * Nat.ceil ((sampleShape.prod : ℚ) / (patchSize.prod : ℚ)) := by
        rw [Nat.mul_comm]
        exact_mod_cast h1
      rw [Nat.div_le_iff_le_mul_add_pred hb]
      omega
    · rw [Nat.ceil_le, div_le_iff₀ hbq]
      have h2 : sampleShape.prod ≤
          patchSize.prod * ((sampleShape.prod + patchSize.prod - 1) / patchSize.prod) := by
        have hdm := Nat.div_add_mod (sampleShape.prod + patchSize.prod - 1) patchSize.prod
        have hlt := Nat.mod_lt (sampleShape.prod + patchSize.prod - 1) hb
        omega
      calc (sampleShape.prod : ℚ)
          ≤ ((patchSize.prod * ((sampleShape.prod + patchSize.prod - 1) / patchSize.prod) : ℕ) : ℚ) := by
            exact_mod_cast h2
        _ = (((sampleShape.prod + patchSize.prod - 1) / patchSize.prod : ℕ) : ℚ) * (patchSize.prod : ℚ) := by
            push_cast
            ring

/-- `mapVals` (hence normalization) preserves the shape of an array. -/
theorem NDArray.mapVals_shape (f : ℚ → ℚ) (a : NDArray) :
    (a.mapVals f).shape = a.shape := rfl

/-- C8: for every array `a`, mean `m` and non-zero std `s`, with
`normalize(a, m, s) = (a - m) / s` and `denormalize(a, m, s) = a * s + m`,
the round-trip `denormalize(normalize(a, m, s), m, s)` equals `a` exactly in
the exact-arithmetic model (hence to floating-point precision in the
implementation). -/
theorem C8_denormalize_normalize_roundtrip (a : NDArray) (m s : ℚ) (hs : s ≠ 0) :
    transforms.denormalize (transforms.normalize a m s) m s = a := by
  cases a with
  | mk shape data =>
    simp only [transforms.normalize, transforms.denormalize, NDArray.mapVals,
      List.map_map, NDArray.mk.injEq, true_and]
    conv_rhs => rw [← List.map_id data]
    apply List.map_congr_left
    intro v _
    simp only [Function.comp_apply, id_eq]
    rw [div_mul_cancel₀ _ hs, sub_add_cancel]

/-- Concrete array for the C8 witness. -/
def c8arr : NDArray := ⟨[2, 2], [3, 1, 4, 1]⟩

/-- Witness for C8 at a concrete array, mean 2 and std 3. -/
theorem C8_witness :
    (3 : ℚ) ≠ 0 ∧ transforms.denormalize (transforms.normalize c8arr 2 3) 2 3 = c8arr :=
  ⟨by norm_num, C8_denormalize_normalize_roundtrip c8arr 2 3 (by norm_num)⟩

/-- A concrete constant-valued stack (all pixels 5) and one of its samples,
used for C9. -/
def constStack : NpStack := ⟨[⟨[2, 2], [5, 5, 5, 5]⟩, ⟨[2, 2], [5, 5, 5, 5]⟩], .float64⟩

/-- One sample of `constStack`. -/
def constArr : NDArray := ⟨[2, 2], [5, 5, 5, 5]⟩

/-- C9 counterexample: on a constant-valued stack the notebook's statistics
cell and `normalize` complete and return plain values — the variance (hence
the std) is 0, and normalizing with std 0 still returns an array of the same
shape.  Neither operation can raise: both are total numeric computations
with no degeneracy check anywhere in the code, so the claimed
`DegenerateStatisticsError` failure does not happen. -/
theorem C9_counterexample :
    constStack.varVal = 0 ∧
      (transforms.normalize constArr constStack.meanVal 0).shape = constArr.shape := by
  constructor
  · simp [NpStack.varVal, NpStack.meanVal, NpStack.pixels, constStack]
    norm_num
  · rfl

/-- C9 (amended): for every nonempty constant-valued stack, the statistics
cell returns the constant as mean and 0 as variance (hence std 0) without
any error; no degeneracy check exists, so these degenerate statistics flow
into `normalize` unchecked (where the implementation's IEEE division by zero
yields non-finite values rather than an error). -/
theorem C9_stats_no_degenerate_check (s : NpStack) (c : ℚ)
    (hne : s.pixels ≠ []) (hconst : ∀ v ∈ s.pixels, v = c) :
    s.meanVal = c ∧ s.varVal = 0 := by
  have hlen : ((s.pixels.length : ℚ)) ≠ 0 := by
    have := List.length_pos.mpr hne
    exact_mod_cast Nat.pos_iff_ne_zero.mp this
  have hmean : s.meanVal = c := by
    unfold NpStack.meanVal
    rw [List.sum_eq_card_nsmul s.pixels c hconst, nsmul_eq_mul]
    exact mul_div_cancel_left₀ c hlen
  refine ⟨hmean, ?_⟩
  unfold NpStack.varVal
  have hz : (s.pixels.map fun v => (v - s.meanVal) ^ 2).sum = 0 := by
    apply List.sum_eq_zero
    intro x hx
    obtain ⟨v, hv, rfl⟩ := List.mem_map.mp hx
    rw [hconst v hv, hmean]
    ring
  rw [hz, zero_div]

/-- Witness for C9's amended statement at the concrete constant stack. -/
theorem C9_witness : constStack.meanVal = 5 ∧ constStack.varVal = 0 :=
  C9_stats_no_degenerate_check constStack 5 (by decide) (by decide)

/-- C10: a `CAREDataset`'s length is the first-dimension size of its image
patch stack alone: construction performs no validation (the constructor is
total, so a target stack of any other length is accepted), and the reported
length neither inspects the target stack nor the augmentation flag. -/
theorem C10_len_image_stack_only (img tgt tgt2 : NpStack) (aug aug2 : Bool) :
    (CAREDataset.mk img tgt aug).len = img.samples.length ∧
      (CAREDataset.mk img tgt aug).len = (CAREDataset.mk img tgt2 aug2).len :=
  ⟨rfl, rfl⟩

/-- C5: with augmentation disabled, retrieval is deterministic: `__getitem__`
returns the pre-extracted patch pair at `index` without consuming any
randomness, so the result is independent of the random state and of the
augmentation function — two retrievals of the same index return
elementwise-equal results (the section 4.1 contract; offsets were fixed at
extraction time). -/
theorem C5_getItem_deterministic_without_augmentation (d : CAREDataset) (stats : NormStats)
    (a1 a2 : RNG → NDArray → NDArray → NDArray × NDArray) (g1 g2 : RNG) (i : Int)
    (haug : d.patch_augment = false) :
    d.getItem stats a1 g1 i = d.getItem stats a2 g2 i := by
  simp [CAREDataset.getItem, haug]

/-- Concrete dataset for the C5 witness. -/
def c5data : CAREDataset :=
  ⟨⟨[⟨[2, 2], [1, 2, 3, 4]⟩], .int64⟩, ⟨[⟨[2, 2], [5, 6, 7, 8]⟩], .int64⟩, false⟩

/-- Concrete statistics for the dataset witnesses. -/
def wStats : NormStats := ⟨1, 2, 3, 4⟩

/-- Witness for C5: two retrievals of index 0 with different random states
and different augmentation functions agree. -/
theorem C5_witness :
    c5data.getItem wStats (fun _ _ t => (t, t)) ⟨fun _ => 5, 0⟩ 0
      = c5data.getItem wStats (fun _ p t => (p, t)) ⟨fun n => n, 3⟩ 0 :=
  C5_getItem_deterministic_without_augmentation c5data wStats _ _ _ _ 0 rfl

/-- C3: every crop offset drawn by `create_patches` (the `crop_coords`
comprehension, embedded as `drawCoords`) satisfies
`offset + patchSize[i] ≤ sampleShape[i]`, i.e. lies in the closed interval
`[0, dimSize - patchSize[i]]`, so the patch fits entirely inside the sample;
when `dimSize = patchSize[i]` the offset on that axis is 0. -/
theorem C3_drawCoords_offsets_in_range :
    ∀ (p shp : List Nat) (g : RNG) (cs : List Nat) (g2 : RNG),
      drawCoords shp p g = .ok (cs, g2) →
      cs.length = p.length ∧
      ∀ i, i < p.length →
        cs.getD i 0 + p.getD i 0 ≤ shp.getD i 0 ∧
          (shp.getD i 0 = p.getD i 0 → cs.getD i 0 = 0) := by
  intro p
  induction p with
  | nil =>
    intro shp g cs g2 hok
    simp only [drawCoords] at hok
    cases hok
    exact ⟨rfl, fun i hi => by simp at hi⟩
  | cons p0 ps ih =>
    intro shp g cs g2 hok
    cases shp with
    | nil => simp [drawCoords] at hok
    | cons d ds =>
      simp only [drawCoords, RNG.integersEndpoint] at hok
      by_cases hdp : d < p0
      · simp [hdp] at hok
      · simp only [hdp, if_false] at hok
        cases hrec : drawCoords ds ps ⟨g.stream, g.pos + 1⟩ with
        | error e => rw [hrec] at hok; simp at hok
        | ok csg =>
          obtain ⟨cs', g''⟩ := csg
          rw [hrec] at hok
          simp only [Except.ok.injEq, Prod.mk.injEq] at hok
          obtain ⟨hcs, -⟩ := hok
          obtain ⟨hlen, hrange⟩ := ih ds ⟨g.stream, g.pos + 1⟩ cs' g'' hrec
          subst hcs
          refine ⟨by simp [hlen], ?_⟩
          intro i hi
          cases i with
          | zero =>
            have hmod : g.stream g.pos % (d - p0 + 1) < d - p0 + 1 :=
              Nat.mod_lt _ (by omega)
            constructor
            · simp only [List.getD_cons_zero]
              omega
            · intro hdeq
              simp only [List.getD_cons_zero] at hdeq ⊢
              have : d - p0 = 0 := by omega
              rw [this] at hmod ⊢
              omega
          | succ j =>
            have hj : j < ps.length := by simpa using hi
            simpa using hrange j hj

/-- Fixed random source used by the extraction witnesses. -/
def wRng : RNG := ⟨fun _ => 7, 0⟩

/-- Witness for C3 at a (5,5) sample shape and (2,2) patch: the drawn
offsets are (3,3) — each in `{0,1,2,3}` — and both axes fit. -/
theorem C3_witness :
    ([3, 3].getD 0 0 + [2, 2].getD 0 0 ≤ [5, 5].getD 0 0) ∧
      ([3, 3].getD 1 0 + [2, 2].getD 1 0 ≤ [5, 5].getD 1 0) :=
  ⟨((C3_drawCoords_offsets_in_range [2, 2] [5, 5] wRng [3, 3] ⟨wRng.stream, 2⟩
      (by rfl)).2 0 (by decide)).1,
    ((C3_drawCoords_offsets_in_range [2, 2] [5, 5] wRng [3, 3] ⟨wRng.stream, 2⟩
      (by rfl)).2 1 (by decide)).1⟩

/-- A patch pair extracted from one sample paired with itself has equal
components: both crops use the identical coordinates. -/
theorem patchOnce_self_eq (s : NDArray) (p : List Nat) (g : RNG)
    (pr : NDArray × NDArray) (g2 : RNG)
    (hok : patchOnce s s p g = .ok (pr, g2)) : pr.1 = pr.2 := by
  unfold patchOnce at hok
  cases hdraw : drawCoords s.shape p g with
  | error e => rw [hdraw] at hok; simp at hok
  | ok cg =>
    obtain ⟨coords, g'⟩ := cg
    rw [hdraw] at hok
    simp only [Except.ok.injEq, Prod.mk.injEq] at hok
    obtain ⟨hpr, -⟩ := hok
    rw [← hpr]

/-- All pairs produced by the inner loop on a self-paired sample have equal
components. -/
theorem patchLoop_self_eq (s : NDArray) (p : List Nat) :
    ∀ (n : Nat) (g : RNG) (l : List (NDArray × NDArray)) (g2 : RNG),
      patchLoop s s p n g = .ok (l, g2) → ∀ pr ∈ l, pr.1 = pr.2 := by
  intro n
  induction n with
  | zero =>
    intro g l g2 hok pr hpr
    simp only [patchLoop] at hok
    cases hok
    simp at hpr
  | succ m ih =>
    intro g l g2 hok pr hpr
    simp only [patchLoop] at hok
    cases hone : patchOnce s s p g with
    | error e => rw [hone] at hok; simp at hok
    | ok prg =>
      obtain ⟨pr0, g'⟩ := prg
      rw [hone] at hok
      dsimp only at hok
      cases hrest : patchLoop s s p m g' with
      | error e => rw [hrest] at hok; simp at hok
      | ok lg =>
        obtain ⟨rest, g''⟩ := lg
        rw [hrest] at hok
        simp only [Except.ok.injEq, Prod.mk.injEq] at hok
        obtain ⟨hl, -⟩ := hok
        subst hl
        rcases List.mem_cons.mp hpr with h0 | hmem
        · subst h0
          exact patchOnce_self_eq s p g pr g' hone
        · exact ih g' rest g'' hrest pr hmem

/-- All pairs produced by the outer loop on a stack paired with itself have
equal components. -/
theorem samplesLoop_self_eq (p : List Nat) :
    ∀ (xs : List NDArray) (g : RNG) (l : List (NDArray × NDArray)) (g2 : RNG),
      samplesLoop p xs xs g = .ok (l, g2) → ∀ pr ∈ l, pr.1 = pr.2 := by
  intro xs
  induction xs with
  | nil =>
    intro g l g2 hok pr hpr
    simp only [samplesLoop] at hok
    cases hok
    simp at hpr
  | cons x rest ih =>
    intro g l g2 hok pr hpr
    simp only [samplesLoop] at hok
    cases hloop : patchLoop x x p (computePatchCount x.shape p) g with
    | error e => rw [hloop] at hok; simp at hok
    | ok prsg =>
      obtain ⟨prs, g'⟩ := prsg
      rw [hloop] at hok
      dsimp only at hok
      cases hrest : samplesLoop p rest rest g' with
      | error e => rw [hrest] at hok; simp at hok
      | ok lg =>
        obtain ⟨l', g''⟩ := lg
        rw [hrest] at hok
        simp only [Except.ok.injEq, Prod.mk.injEq] at hok
        obtain ⟨hl, -⟩ := hok
        subst hl
        rcases List.mem_append.mp hpr with hmem | hmem
        · exact patchLoop_self_eq x p (computePatchCount x.shape p) g prs g' hloop pr hmem
        · exact ih g' l' g'' hrest pr hmem

/-- C1: patch/target alignment.  Each extracted noisy patch and its paired
target patch come from the same sample at the identical spatial offset, so
whenever the noisy and target stacks hold elementwise-equal arrays, the two
returned patch stacks are equal (every pair satisfies patch = target). -/
theorem C1_paired_patches_aligned (img tgt : NpStack) (p : List Nat) (g : RNG)
    (ps ts : NpStack) (hsame : img.samples = tgt.samples)
    (hok : create_patches img tgt p g = .ok (ps, ts)) : ps = ts := by
  unfold create_patches at hok
  rw [← hsame] at hok
  cases hrun : samplesLoop p img.samples img.samples g with
  | error e => rw [hrun] at hok; simp at hok
  | ok lg =>
    obtain ⟨l, g2⟩ := lg
    rw [hrun] at hok
    by_cases hemp : l.isEmpty
    · simp [hemp] at hok
    · rw [Bool.not_eq_true] at hemp
      simp only [hemp, Bool.false_eq_true, if_false, Except.ok.injEq, Prod.mk.injEq] at hok
      obtain ⟨hps, hts⟩ := hok
      have hmap : l.map Prod.fst = l.map Prod.snd :=
        List.map_congr_left fun pr hpr => samplesLoop_self_eq p img.samples g l g2 hrun pr hpr
      rw [← hps, ← hts, hmap]

/-- Concrete one-sample stack used by the C1, C2 and C4 witnesses. -/
def wStack : NpStack := ⟨[⟨[3, 3], [0, 1, 2, 3, 4, 5, 6, 7, 8]⟩], .int64⟩

/-- The noisy-patch stack of the concrete C1 extraction run. -/
def wPatches : NpStack :=
  ((create_patches wStack wStack [2, 2] wRng).toOption.getD
    (⟨[], .float32⟩, ⟨[], .float32⟩)).1

/-- The target-patch stack of the concrete C1 extraction run. -/
def wTargets : NpStack :=
  ((create_patches wStack wStack [2, 2] wRng).toOption.getD
    (⟨[], .float32⟩, ⟨[], .float32⟩)).2

/-- Witness for C1: a concrete run on an identical noisy/target stack
returns equal patch stacks. -/
theorem C1_witness : wStack.samples = wStack.samples ∧ wPatches = wTargets :=
  ⟨rfl, C1_paired_patches_aligned wStack wStack [2, 2] wRng wPatches wTargets rfl (by rfl)⟩

/-- When some patch dimension strictly exceeds the corresponding sample
dimension, the coordinate draw fails with `ValueError` (the first offending
axis makes `rng.integers` see a negative upper bound). -/
theorem drawCoords_oversized_error :
    ∀ (p shp : List Nat) (g : RNG), p.length ≤ shp.length →
      (∃ i, i < p.length ∧ shp.getD i 0 < p.getD i 0) →
      drawCoords shp p g = .error .valueError := by
  intro p
  induction p with
  | nil =>
    intro shp g _ hbad
    obtain ⟨i, hi, -⟩ := hbad
    simp at hi
  | cons p0 ps ih =>
    intro shp g hlen hbad
    cases shp with
    | nil => simp at hlen
    | cons d ds =>
      simp only [drawCoords, RNG.integersEndpoint]
      by_cases hdp : d < p0
      · simp [hdp]
      · simp only [hdp, if_false]
        obtain ⟨i, hi, hbd⟩ := hbad
        cases i with
        | zero => simp at hbd; omega
        | succ j =>
          have hrec := ih ds ⟨g.stream, g.pos + 1⟩ (by simpa using hlen)
            ⟨j, by simpa using hi, by simpa using hbd⟩
          rw [hrec]

/-- With a zero per-sample patch count, every sample contributes no pairs
and the outer loop returns an empty list unchanged. -/
theorem samplesLoop_zero_count (p shp : List Nat) (hcnt : computePatchCount shp p = 0) :
    ∀ (imgs tgts : List NDArray) (g : RNG),
      (∀ s ∈ imgs, s.shape = shp) → imgs.length ≤ tgts.length →
      samplesLoop p imgs tgts g = .ok ([], g) := by
  intro imgs
  induction imgs with
  | nil => intro tgts g _ _; simp [samplesLoop]
  | cons x rest ih =>
    intro tgts g huni hlen
    cases tgts with
    | nil => simp at hlen
    | cons t ts =>
      have hx : x.shape = shp := huni x (by simp)
      simp only [samplesLoop, hx, hcnt, patchLoop]
      rw [ih ts g (fun s hs => huni s (by simp [hs])) (by simpa using hlen)]
      rfl

/-- C4: whenever some patch dimension strictly exceeds the corresponding
sample dimension on some axis, `create_patches` fails synchronously with a
`ValueError` (the spec's `InvalidPatchSize`) and returns no patches: either
the very first offset draw raises, or (for zero-volume samples) no pair is
ever produced and stacking the empty list raises. -/
theorem C4_oversized_patch_fails (img tgt : NpStack) (p : List Nat) (g : RNG)
    (shp : List Nat)
    (huni : ∀ s ∈ img.samples, s.shape = shp)
    (hne : img.samples ≠ [])
    (hlen : img.samples.length ≤ tgt.samples.length)
    (hplen : p.length ≤ shp.length)
    (hbad : ∃ i, i < p.length ∧ shp.getD i 0 < p.getD i 0) :
    create_patches img tgt p g = .error .valueError := by
  unfold create_patches
  by_cases hcnt : computePatchCount shp p = 0
  · rw [samplesLoop_zero_count p shp hcnt img.samples tgt.samples g huni hlen]
    simp
  · cases himg : img.samples with
    | nil => exact absurd himg hne
    | cons s0 srest =>
      cases htgt : tgt.samples with
      | nil => rw [himg, htgt] at hlen; simp at hlen
      | cons t0 trest =>
        have hs0 : s0.shape = shp := huni s0 (by simp [himg])
        have hdraw : drawCoords s0.shape p g = .error .valueError := by
          rw [hs0]
          exact drawCoords_oversized_error p shp g hplen hbad
        have hcnt' : ∃ m, computePatchCount s0.shape p = m + 1 := by
          rw [hs0]
          exact ⟨computePatchCount shp p - 1, by omega⟩
        obtain ⟨m, hm⟩ := hcnt'
        simp only [samplesLoop, hm, patchLoop, patchOnce, hdraw]

/-- Witness for C4: a (6,6) patch on a (3,3) sample fails with the modelled
`ValueError`. -/
theorem C4_witness : create_patches wStack wStack [6, 6] wRng = .error .valueError :=
  C4_oversized_patch_fails wStack wStack [6, 6] wRng [3, 3] (by decide) (by decide)
    (by decide) (by decide) ⟨0, by decide⟩

/-- Validity of a patch size against a sample shape: there are at least as
many sample axes as patch axes, and each patch dimension fits within the
corresponding sample dimension. -/
def fitsB : List Nat → List Nat → Bool
  | [], _ => true
  | _ :: _, [] => false
  | p :: ps, d :: ds => decide (p ≤ d) && fitsB ps ds

/-- Under a valid patch size, the coordinate draw always succeeds. -/
theorem drawCoords_ok_of_fits :
    ∀ (p shp : List Nat) (g : RNG), fitsB p shp = true →
      ∃ cs g2, drawCoords shp p g = .ok (cs, g2) := by
  intro p
  induction p with
  | nil => intro shp g _; exact ⟨[], g, by simp [drawCoords]⟩
  | cons p0 ps ih =>
    intro shp g hfit
    cases shp with
    | nil => simp [fitsB] at hfit
    | cons d ds =>
      simp only [fitsB, Bool.and_eq_true, decide_eq_true_eq] at hfit
      obtain ⟨hpd, hfit'⟩ := hfit
      obtain ⟨cs, g2, hrec⟩ := ih ds ⟨g.stream, g.pos + 1⟩ hfit'
      refine ⟨g.stream g.pos % (d - p0 + 1) :: cs, g2, ?_⟩
      simp only [drawCoords, RNG.integersEndpoint]
      rw [if_neg (Nat.not_lt.mpr hpd)]
      dsimp only
      rw [hrec]

/-- Under a valid patch size, the inner loop succeeds and produces exactly
`n` pairs. -/
theorem patchLoop_ok_of_fits (s t : NDArray) (p : List Nat)
    (hfit : fitsB p s.shape = true) :
    ∀ (n : Nat) (g : RNG), ∃ l g2,
      patchLoop s t p n g = .ok (l, g2) ∧ l.length = n := by
  intro n
  induction n with
  | zero => intro g; exact ⟨[], g, rfl, rfl⟩
  | succ m ih =>
    intro g
    obtain ⟨cs, g', hdraw⟩ := drawCoords_ok_of_fits p s.shape g hfit
    obtain ⟨l, g2, hloop, hlenl⟩ := ih g'
    refine ⟨(cropEllipsis cs p s, cropEllipsis cs p t) :: l, g2, ?_, by simp [hlenl]⟩
    simp only [patchLoop, patchOnce, hdraw]
    rw [hloop]

/-- Under a valid patch size for every sample (and a target stack at least
as long), the outer loop succeeds and the number of extracted pairs is the
sum over samples of the per-sample patch count. -/
theorem samplesLoop_ok_of_fits (p : List Nat) :
    ∀ (imgs tgts : List NDArray) (g : RNG),
      (∀ s ∈ imgs, fitsB p s.shape = true) → imgs.length ≤ tgts.length →
      ∃ l g2, samplesLoop p imgs tgts g = .ok (l, g2) ∧
        l.length = (imgs.map fun s => computePatchCount s.shape p).sum := by
  intro imgs
  induction imgs with
  | nil => intro tgts g _ _; exact ⟨[], g, rfl, rfl⟩
  | cons x rest ih =>
    intro tgts g hfit hlen
    cases tgts with
    | nil => simp at hlen
    | cons t ts =>
      obtain ⟨l1, g1, hloop, hlen1⟩ :=
        patchLoop_ok_of_fits x t p (hfit x (by simp)) (computePatchCount x.shape p) g
      obtain ⟨l2, g2, hrest, hlen2⟩ :=
        ih ts g1 (fun s hs => hfit s (by simp [hs])) (by simpa using hlen)
      refine ⟨l1 ++ l2, g2, ?_, by simp [hlen1, hlen2]⟩
      simp only [samplesLoop]
      rw [hloop]
      dsimp only
      rw [hrest]

/-- A valid patch size with positive volumes yields a positive per-sample
patch count. -/
theorem computePatchCount_pos (shp p : List Nat)
    (hs : 0 < shp.prod) (hp : 0 < p.prod) : 0 < computePatchCount shp p := by
  unfold computePatchCount
  exact Nat.div_pos (by omega) hp

/-- C2: for every paired extraction over a nonempty stack with a valid
patch size (each patch axis fits in the corresponding sample axis, volumes
positive), `create_patches` succeeds, the per-sample patch count is
`ceil(prod(sampleShape) / prod(patchSize))`, and the total number of
returned patch pairs — which `CAREDataset.__len__` reports — is the sum of
that count over all samples. -/
theorem C2_patch_count_total (img tgt : NpStack) (p : List Nat) (g : RNG)
    (hne : img.samples ≠ [])
    (hfit : ∀ s ∈ img.samples, fitsB p s.shape = true)
    (hvol : ∀ s ∈ img.samples, 0 < s.shape.prod)
    (hp : 0 < p.prod)
    (hlen : img.samples.length ≤ tgt.samples.length) :
    ∃ ps ts, create_patches img tgt p g = .ok (ps, ts) ∧
      ps.samples.length = (img.samples.map fun s => computePatchCount s.shape p).sum ∧
      ts.samples.length = (img.samples.map fun s => computePatchCount s.shape p).sum ∧
      (CAREDataset.mk ps ts false).len =
        (img.samples.map fun s =>
          Nat.ceil ((s.shape.prod : ℚ) / (p.prod : ℚ))).sum := by
  obtain ⟨l, g2, hrun, hlenl⟩ := samplesLoop_ok_of_fits p img.samples tgt.samples g hfit hlen
  have hpos : 0 < l.length := by
    rw [hlenl]
    cases himg : img.samples with
    | nil => exact absurd himg hne
    | cons s0 rest =>
      have h0 : 0 < computePatchCount s0.shape p :=
        computePatchCount_pos s0.shape p (hvol s0 (by simp [himg])) hp
      simp only [himg, List.map_cons, List.sum_cons]
      omega
  have hemp : l.isEmpty = false := by
    cases l with
    | nil => simp at hpos
    | cons a as => rfl
  refine ⟨⟨l.map Prod.fst, .float32⟩, ⟨l.map Prod.snd, .float32⟩, ?_, by simp [hlenl],
    by simp [hlenl], ?_⟩
  · unfold create_patches
    rw [hrun]
    simp [hemp]
  · show (l.map Prod.fst).length = _
    rw [List.length_map, hlenl]
    congr 1
    apply List.map_congr_left
    intro s _
    exact computePatchCount_eq_ceil s.shape p

/-- Witness for C2: the concrete (3,3)-sample stack with (2,2) patches
yields ceil(9/4) = 3 pairs. -/
theorem C2_witness :
    wPatches.samples.length =
      (wStack.samples.map fun s => computePatchCount s.shape [2, 2]).sum ∧
    wPatches.samples.length = 3 := by
  obtain ⟨ps, ts, hok, h1, -, -⟩ := C2_patch_count_total wStack wStack [2, 2] wRng
    (by decide) (by decide) (by decide) (by decide) (by decide)
  have hW : create_patches wStack wStack [2, 2] wRng = .ok (wPatches, wTargets) := by rfl
  rw [hW] at hok
  simp only [Except.ok.injEq, Prod.mk.injEq] at hok
  obtain ⟨hps, -⟩ := hok
  constructor
  · rw [hps]
    exact h1
  · rw [hps, h1]
    rfl

/-- A successful numpy first-axis lookup returns an element of the list. -/
theorem npListGet_mem (xs : List NDArray) (i : Int) (a : NDArray)
    (hok : npListGet xs i = .ok a) : a ∈ xs := by
  unfold npListGet at hok
  by_cases h1 : 0 ≤ i ∧ i < (xs.length : Int)
  · rw [if_pos h1] at hok
    simp only [Except.ok.injEq] at hok
    subst hok
    have hlt : i.toNat < xs.length := by omega
    rw [List.getD_eq_getElem xs _ hlt]
    exact List.getElem_mem hlt
  · rw [if_neg h1] at hok
    by_cases h2 : -(xs.length : Int) ≤ i ∧ i < 0
    · rw [if_pos h2] at hok
      simp only [Except.ok.injEq] at hok
      subst hok
      have hlt : (i + xs.length).toNat < xs.length := by omega
      rw [List.getD_eq_getElem xs _ hlt]
      exact List.getElem_mem hlt
    · rw [if_neg h2] at hok
      simp at hok

/-- C6 (amended): when augmentation is disabled and every stored patch (and
target patch) has shape `p`, `__getitem__` returns arrays of shape
`(1, *p)` with dtype float32.  In general the output shape is
`(1, *itemShape)` for the stored stack's per-item shape, which equals
`(1, *patchSize)` exactly when the dataset was built from patches of shape
`patchSize` — not "regardless of the rank of the input arrays". -/
theorem C6_getItem_shape_and_dtype (d : CAREDataset) (stats : NormStats)
    (aug : RNG → NDArray → NDArray → NDArray × NDArray) (g : RNG) (i : Int)
    (p : List Nat) (its : NpItem × NpItem)
    (haug : d.patch_augment = false)
    (himg : ∀ a ∈ d.image_data.samples, a.shape = p)
    (htgt : ∀ a ∈ d.target_data.samples, a.shape = p)
    (hok : d.getItem stats aug g i = .ok its) :
    its.1.arr.shape = 1 :: p ∧ its.2.arr.shape = 1 :: p ∧
      its.1.dtype = .float32 ∧ its.2.dtype = .float32 := by
  unfold CAREDataset.getItem at hok
  cases hpg : npListGet d.image_data.samples i with
  | error e => rw [hpg] at hok; simp at hok
  | ok patch0 =>
    rw [hpg] at hok
    dsimp only at hok
    cases htg : npListGet d.target_data.samples i with
    | error e => rw [htg] at hok; simp at hok
    | ok target0 =>
      rw [htg] at hok
      simp only [haug, if_false, Except.ok.injEq] at hok
      subst hok
      have hp1 : patch0.shape = p := himg patch0 (npListGet_mem _ _ _ hpg)
      have hp2 : target0.shape = p := htgt target0 (npListGet_mem _ _ _ htg)
      exact ⟨by simp [transforms.normalize, NDArray.mapVals, hp1],
        by simp [transforms.normalize, NDArray.mapVals, hp2], rfl, rfl⟩

/-- A one-sample rank-3 stack (shape (2,3,3)) used to refute C6 as stated. -/
def rank3Stack : NpStack :=
  ⟨[⟨[2, 3, 3], [0, 1, 2, 3, 4, 5, 6, 7, 8, 9, 10, 11, 12, 13, 14, 15, 16, 17]⟩], .int64⟩

/-- The item retrieved at index 0 from the dataset built by running
`create_patches` with patch size (2,2) over the rank-3 stack. -/
def rank3Item : NpItem × NpItem :=
  ((CAREDataset.mk
      ((create_patches rank3Stack rank3Stack [2, 2] wRng).toOption.getD
        (⟨[], .float32⟩, ⟨[], .float32⟩)).1
      ((create_patches rank3Stack rank3Stack [2, 2] wRng).toOption.getD
        (⟨[], .float32⟩, ⟨[], .float32⟩)).2
      false).getItem wStats (fun _ a b => (a, b)) wRng 0).toOption.getD
    (⟨⟨[], []⟩, .float32⟩, ⟨⟨[], []⟩, .float32⟩)

/-- C6 counterexample: build the dataset from a `create_patches` run with
`patch_size = (2,2)` over a rank-3 sample of shape (2,3,3).  Retrieval at
index 0 succeeds and returns arrays of shape (1,2,2,2), not `(1, *patchSize)
= (1,2,2)`: the guarantee does not hold "regardless of the rank of the input
arrays". -/
theorem C6_counterexample :
    rank3Item.1.arr.shape = [1, 2, 2, 2] ∧ rank3Item.1.arr.shape ≠ 1 :: [2, 2] :=
  ⟨by rfl, by decide⟩

/-- Dataset of (3,3)-shaped items for the C6 witness. -/
def c6data : CAREDataset :=
  ⟨⟨[⟨[3, 3], [0, 1, 2, 3, 4, 5, 6, 7, 8]⟩], .int64⟩,
   ⟨[⟨[3, 3], [8, 7, 6, 5, 4, 3, 2, 1, 0]⟩], .int64⟩, false⟩

/-- The item the C6 witness retrieves. -/
def c6item : NpItem × NpItem :=
  (c6data.getItem wStats (fun _ a b => (a, b)) wRng 0).toOption.getD
    (⟨⟨[], []⟩, .float32⟩, ⟨⟨[], []⟩, .float32⟩)

/-- Witness for C6's amended statement: items stored with shape (3,3) come
back with shape (1,3,3) and dtype float32. -/
theorem C6_witness :
    c6item.1.arr.shape = 1 :: [3, 3] ∧ c6item.2.arr.shape = 1 :: [3, 3] ∧
      c6item.1.dtype = .float32 ∧ c6item.2.dtype = .float32 :=
  C6_getItem_shape_and_dtype c6data wStats (fun _ a b => (a, b)) wRng 0 [3, 3] c6item
    rfl (by decide) (by decide) (by rfl)

/-- Outside `[-n, n)`, numpy first-axis indexing raises `IndexError`. -/
theorem npListGet_err_of_out (xs : List NDArray) (i : Int)
    (h : i < -(xs.length : Int) ∨ (xs.length : Int) ≤ i) :
    npListGet xs i = .error .indexError := by
  unfold npListGet
  rw [if_neg (by omega), if_neg (by omega)]

/-- Inside `[-n, n)`, numpy first-axis indexing succeeds (negative indices
wrap). -/
theorem npListGet_ok_of_in (xs : List NDArray) (i : Int)
    (h : -(xs.length : Int) ≤ i ∧ i < (xs.length : Int)) :
    ∃ a, npListGet xs i = .ok a := by
  unfold npListGet
  by_cases h1 : 0 ≤ i ∧ i < (xs.length : Int)
  · rw [if_pos h1]
    exact ⟨_, rfl⟩
  · rw [if_neg h1, if_pos (by omega)]
    exact ⟨_, rfl⟩

/-- C7 (amended): `__getitem__` fails with `IndexError` exactly when the
index lies outside `[-length, length)`: indices at or beyond `length` and
below `-length` fail, but negative indices in `[-length, -1]` wrap around
numpy-style and return the patch pair at `length + index` — not every
negative index fails. -/
theorem C7_getItem_index_error_iff (d : CAREDataset) (stats : NormStats)
    (aug : RNG → NDArray → NDArray → NDArray × NDArray) (g : RNG) (i : Int)
    (hlen : d.target_data.samples.length = d.image_data.samples.length) :
    d.getItem stats aug g i = .error .indexError ↔
      (i < -(d.len : Int) ∨ (d.len : Int) ≤ i) := by
  constructor
  · intro herr
    by_contra hout
    have hin : -(d.len : Int) ≤ i ∧ i < (d.len : Int) := by omega
    obtain ⟨a, ha⟩ := npListGet_ok_of_in d.image_data.samples i hin
    obtain ⟨b, hb⟩ := npListGet_ok_of_in d.target_data.samples i
      (by unfold CAREDataset.len at hin; omega)
    unfold CAREDataset.getItem at herr
    rw [ha] at herr
    dsimp only at herr
    rw [hb] at herr
    simp at herr
  · intro h
    unfold CAREDataset.getItem
    rw [npListGet_err_of_out d.image_data.samples i h]

/-- The pair numpy-style index `-1` retrieves from the one-item dataset. -/
def c7item : NpItem × NpItem :=
  (c6data.getItem wStats (fun _ a b => (a, b)) wRng (-1)).toOption.getD
    (⟨⟨[], []⟩, .float32⟩, ⟨⟨[], []⟩, .float32⟩)

/-- C7 counterexample: on a dataset of length 1, `__getitem__(-1)` — an
index outside `[0, length)` — succeeds and returns a patch pair (numpy
negative-index wrapping) instead of always failing with `IndexOutOfBounds`. -/
theorem C7_counterexample :
    c6data.len = 1 ∧
      c6data.getItem wStats (fun _ a b => (a, b)) wRng (-1) = .ok c7item :=
  ⟨rfl, by rfl⟩

/-- Witness for C7's amended statement: indices 5 and -2 lie outside
`[-1, 1)` for the one-item dataset and fail with `IndexError`. -/
theorem C7_witness :
    c6data.getItem wStats (fun _ a b => (a, b)) wRng 5 = .error .indexError ∧
      c6data.getItem wStats (fun _ a b => (a, b)) wRng (-2) = .error .indexError :=
  ⟨(C7_getItem_index_error_iff c6data wStats (fun _ a b => (a, b)) wRng 5 rfl).mpr
      (by decide),
    (C7_getItem_index_error_iff c6data wStats (fun _ a b => (a, b)) wRng (-2) rfl).mpr
      (by decide)⟩
